import Mathlib

/-!
Shallow embedding of the feedpet pet-adoption application
(`adocoes/models.py`, `adocoes/forms.py`, `adocoes/views.py`,
`adocoes/admin.py`) and proofs about its specification.

Machine conventions:
* Django model rows become Lean structures; the database is a `List` of rows.
* Uploaded files are records of name and byte size.
* Python exceptions (`ValidationError`, `AttributeError`, `ValueError`)
  become `Except` results.
* The acting user of a request is `Option User`; `none` models both a
  missing `user` kwarg and an unauthenticated (anonymous) requester,
  which Django reports via `is_authenticated = False`.
* Framework utilities (`django.utils.text.slugify`) are kept abstract:
  functions that call them take the utility as a parameter.
-/

namespace FeedPet

/-- The `Pet.EspecieChoices` from `adocoes/models.py`. -/
inductive Especie
  | CACHORRO | GATO | COELHO | PEIXE | PASSARO | ROEDOR | REPTIL | OUTRO
  deriving DecidableEq, Repr

/-- The `Pet.StatusChoices` from `adocoes/models.py`. -/
inductive Status
  | PENDENTE | DISPONIVEL | EM_PROCESSO | ADOTADO
  deriving DecidableEq, Repr

/-- The database value (`choice[0]`) of each status, as in `StatusChoices.choices`. -/
def Status.code : Status → String
  | .PENDENTE => "PENDENTE"
  | .DISPONIVEL => "DISPONIVEL"
  | .EM_PROCESSO => "EM_PROCESSO"
  | .ADOTADO => "ADOTADO"

/-- The members of `Pet.StatusChoices`, in declaration order. -/
def statusChoices : List Status := [.PENDENTE, .DISPONIVEL, .EM_PROCESSO, .ADOTADO]

/-- The database value of each species, as in `EspecieChoices.choices`. -/
def Especie.code : Especie → String
  | .CACHORRO => "CACHORRO"
  | .GATO => "GATO"
  | .COELHO => "COELHO"
  | .PEIXE => "PEIXE"
  | .PASSARO => "PASSARO"
  | .ROEDOR => "ROEDOR"
  | .REPTIL => "REPTIL"
  | .OUTRO => "OUTRO"

/-- A row of the `Pet` model (`adocoes/models.py`).  `pk = none` models an
unsaved instance.  `solicitante` stores the id of the submitting user
(nullable, `on_delete=SET_NULL`).  Timestamps are abstract ticks. -/
structure Pet where
  pk : Option Nat
  solicitante : Option Nat
  nome : String
  slug : String
  especie : Especie
  raca : Option String
  idade : Nat
  descricao : String
  status : Status
  dataCadastro : Nat
  dataAtualizacao : Nat
  deriving DecidableEq, Repr

/-- A row of the `PetExtraPhoto` model (`adocoes/models.py`): gallery photo
owned by a pet, with an `ordem` integer (default 0) and an upload timestamp. -/
structure PetExtraPhoto where
  id : Nat
  pet : Nat
  imagem : String
  ordem : Nat
  dataEnvio : Nat
  deriving DecidableEq, Repr

/-- The slice of `django.contrib.auth.models.User` the application reads. -/
structure User where
  id : Nat
  is_staff : Bool
  deriving DecidableEq, Repr

/-- An uploaded file as the form sees it: a `name` and a byte `size`. -/
structure UploadFile where
  name : String
  size : Nat
  deriving DecidableEq, Repr

/-- The failure modes of `PetForm` validation and save
(`ValidationError` variants raised in `adocoes/forms.py`, plus Python
`AttributeError` for a `None` dereference). -/
inductive FormError
  | countExceeded
  | invalidFormat (extension : String)
  | fileTooLarge (filename : String)
  | racaRequired
  | attributeError
  deriving DecidableEq, Repr

/-- Python `str.upper()`: uppercase character by character. -/
def pyUpper (s : String) : String := String.mk (s.data.map Char.toUpper)

/-- Python `str.lower()`: lowercase character by character. -/
def pyLower (s : String) : String := String.mk (s.data.map Char.toLower)

/-- Python `str.split` on the separator `"."`, on the character list of the
string: `splitDot cs` are the dot-separated groups of `cs`. -/
def splitDot : List Char → List (List Char)
  | [] => [[]]
  | c :: cs =>
    if c = '.' then [] :: splitDot cs
    else
      match splitDot cs with
      | [] => [[c]]
      | g :: gs => (c :: g) :: gs

/-- The `filename.split(".")[-1].lower()` from `PetForm._validate_file_extension`:
the group after the last dot, lowercased. -/
def extensionOf (filename : String) : String :=
  String.mk (((splitDot filename.data).getLastD []).map Char.toLower)

/-- The `PetForm._validate_file_extension` (`adocoes/forms.py`): raise
`ValidationError` when the lowercased last dot-group of the filename is not
in the allowed list. -/
def validateFileExtension (filename : String) (allowed : List String) :
    Except FormError Unit :=
  let extension := extensionOf filename
  if allowed.contains extension then .ok () else .error (.invalidFormat extension)

/-- The `PetForm._validate_file_size` (`adocoes/forms.py`): raise
`ValidationError` when the byte size exceeds `max_size_mb * 1024 * 1024`. -/
def validateFileSize (file : UploadFile) (maxSizeMb : Nat) :
    Except FormError Unit :=
  let maxBytes := maxSizeMb * 1024 * 1024
  if file.size > maxBytes then .error (.fileTooLarge file.name) else .ok ()

/-- Validate one gallery file as the loop body of `PetForm.clean` does:
extension first, then size. -/
def validateGalleryFile (allowedImages : List String) (maxImageMb : Nat)
    (file : UploadFile) : Except FormError Unit := do
  validateFileExtension file.name allowedImages
  validateFileSize file maxImageMb

/-- Run a validator over each file in order, stopping at the first error
(the `for file_obj in extra_files` loop of `PetForm.clean`). -/
def validateEach (check : UploadFile → Except FormError Unit) :
    List UploadFile → Except FormError Unit
  | [] => .ok ()
  | f :: fs => do
    check f
    validateEach check fs

/-- The cleaned field values a bound `PetForm` carries into `clean`/`save`.
`status` is the posted status choice; it only reaches the instance when the
`status` field was not popped in `__init__`.  `fotosAdicionais` is
`self.files.getlist("fotos_adicionais")` and `fotosExtrasRemover` the ids
selected in the `fotos_extras_remover` field. -/
structure FormData where
  nome : String
  especie : Especie
  status : Status
  raca : Option String
  idade : Nat
  descricao : String
  videoFile : Option UploadFile
  fotosAdicionais : List UploadFile
  fotosExtrasRemover : List Nat
  deriving Repr

/-- Python truthiness of the optional `raca` char field: `None` and the empty
string are falsy. -/
def racaBlank : Option String → Bool
  | none => true
  | some s => s = ""

/-- The `PetForm.__init__` (`adocoes/forms.py`): the `status` field survives in
`self.fields` unless a user was passed and that user is not staff
(`if self.user and not self.user.is_staff: self.fields.pop("status")`). -/
def statusFieldKept (user : Option User) : Bool :=
  match user with
  | none => true
  | some u => u.is_staff

/-- The `if extra_files:` block of `PetForm.clean` (`adocoes/forms.py`):
when new gallery files are present, check
`len(extra_files) + self._existing_extra_photos` against the configured
maximum — the removal selection plays no part — then validate each file.
`existing` is `self._existing_extra_photos`, the gallery photo
count captured in `__init__`. -/
def petFormCleanGallery (maxPhotos maxImageMb : Nat)
    (allowedImages : List String) (existing : Nat) (data : FormData) :
    Except FormError Unit := do
  if data.fotosAdicionais ≠ [] then
    let total := data.fotosAdicionais.length + existing
    if total > maxPhotos then
      throw .countExceeded
    validateEach (validateGalleryFile allowedImages maxImageMb) data.fotosAdicionais

/-- The `if video_file:` block of `PetForm.clean`: extension then size. -/
def petFormCleanVideo (maxVideoMb : Nat) (allowedVideos : List String)
    (data : FormData) : Except FormError Unit := do
  match data.videoFile with
  | some v =>
    validateFileExtension v.name allowedVideos
    validateFileSize v maxVideoMb
  | none => pure ()

/-- The species/breed consistency check closing `PetForm.clean`: species
`OUTRO` with a blank breed gets a field error on `raca`. -/
def petFormCleanRaca (data : FormData) : Except FormError FormData :=
  if data.especie = .OUTRO ∧ racaBlank data.raca then .error .racaRequired
  else .ok data

/-- The `PetForm.clean` (`adocoes/forms.py`): gallery-count check against the
configured maximum with per-file extension/size validation, video
extension/size validation, then the species/breed consistency check. -/
def petFormClean (maxPhotos maxImageMb maxVideoMb : Nat)
    (allowedImages allowedVideos : List String)
    (existing : Nat) (data : FormData) : Except FormError FormData := do
  petFormCleanGallery maxPhotos maxImageMb allowedImages existing data
  petFormCleanVideo maxVideoMb allowedVideos data
  petFormCleanRaca data

/-- The `super().save(commit=False)` step of `PetForm.save`: copy the
cleaned editable fields onto the instance.  `status` is copied only when
the field was kept by `__init__` (a popped field is absent from the form
and leaves the instance value alone); `slug` and `solicitante` are excluded
by `Meta`. -/
def applyFormFields (keepStatus : Bool) (inst : Pet) (data : FormData) : Pet :=
  { inst with
    nome := data.nome
    especie := data.especie
    raca := data.raca
    idade := data.idade
    descricao := data.descricao
    status := if keepStatus then data.status else inst.status }

/-- The `PetForm.save` without the commit step (`adocoes/forms.py`): build the
instance, set `solicitante` on a new pet when a user is present, then
evaluate `self.user.is_staff` — which raises `AttributeError` when the form
was built with `user=None` — and force `status = PENDENTE` for a new pet
of a non-staff user. -/
def petFormSaveInstance (user : Option User) (inst : Pet) (data : FormData) :
    Except FormError Pet := do
  let pet := applyFormFields (statusFieldKept user) inst data
  let pet :=
    if inst.pk = none then
      match user with
      | some u => { pet with solicitante := some u.id }
      | none => pet
    else pet
  match user with
  | none => throw .attributeError
  | some u =>
    let pet :=
      if ¬ u.is_staff ∧ inst.pk = none then { pet with status := .PENDENTE }
      else pet
    pure pet

/-- The `PetForm._save_m2m_data` (`adocoes/forms.py`) acting on a single pet record and its
gallery rows: delete the selected photos, recount the remaining ones
(`pet_instance.fotos_extras.count()`), then create one row per new file
with `ordem` running from `existing_count + 1`
(`enumerate(extra_files, start=existing_count + 1)`).  `nextId` and `now`
supply the database id sequence and the `auto_now_add` timestamp. -/
def saveM2mData (photos : List PetExtraPhoto) (petId : Nat)
    (toRemove : List Nat) (newFiles : List UploadFile)
    (nextId now : Nat) : List PetExtraPhoto :=
  let remaining := photos.filter (fun p => ¬ p.id ∈ toRemove)
  let existingCount := remaining.length
  remaining ++ (newFiles.enum.map (fun pair =>
    { id := nextId + pair.1
      pet := petId
      imagem := pair.2.name
      ordem := existingCount + 1 + pair.1
      dataEnvio := now }))

/-- The `PetAdmin.aprovar_pets` (`adocoes/admin.py`) on the selected queryset:
`queryset.filter(status=PENDENTE).update(status=DISPONIVEL)` returns the
number of updated rows, reported to the admin user.  The result is the
selected rows after the update together with that count. -/
def aprovarPets (selected : List Pet) : List Pet × Nat :=
  let petsParaAprovar := selected.filter (fun p => p.status = .PENDENTE)
  let updated := selected.map (fun p =>
    if p.status = .PENDENTE then { p with status := .DISPONIVEL } else p)
  (updated, petsParaAprovar.length)

/-- The numeric slug candidates of `Pet.save`: candidate `0` is the base
slug itself, candidate `k+1` is `f"{base_slug}-{num}"` with `num = k+1`. -/
def slugCandidate (base : String) : Nat → String
  | 0 => base
  | k + 1 => base ++ "-" ++ toString (k + 1)

/-- The `while Pet.objects.filter(slug=unique_slug).exists()` loop of
`Pet.save` (`adocoes/models.py`): while the candidate is taken, move to
`f"{base_slug}-{num}"` and bump `num`.  `fuel` bounds the iterations so the
function is total; `findSlug` is run with fuel `taken.length + 1`. -/
def findSlug (taken : List String) (base : String) :
    Nat → Nat → String → String
  | 0, _, uniqueSlug => uniqueSlug
  | fuel + 1, num, uniqueSlug =>
    if taken.contains uniqueSlug then
      findSlug taken base fuel (num + 1) (base ++ "-" ++ toString num)
    else uniqueSlug

/-- The `Pet.save` slug assignment (`adocoes/models.py`): when `self.slug` is
empty, derive the base slug from the name with the framework `slugify`
utility (kept abstract) and run the uniqueness loop against the set of
slugs already in the database; a non-empty slug is left untouched. -/
def petAssignSlug (slugify : String → String) (takenSlugs : List String)
    (p : Pet) : Pet :=
  if p.slug = "" then
    let baseSlug := slugify p.nome
    { p with slug := findSlug takenSlugs baseSlug (takenSlugs.length + 1) 1 baseSlug }
  else p

/-- Does `hay` start with `needle` (character lists)? -/
def startsWithChars : List Char → List Char → Bool
  | _, [] => true
  | [], _ :: _ => false
  | c :: cs, d :: ds => c = d && startsWithChars cs ds

/-- Does `hay` contain `needle` as a contiguous run (character lists)? -/
def hasSubstr : List Char → List Char → Bool
  | [], needle => needle.isEmpty
  | hay@(_ :: tl), needle => startsWithChars hay needle || hasSubstr tl needle

/-- Django `nome__icontains=nome`: case-insensitive substring match. -/
def icontains (hay needle : String) : Bool :=
  hasSubstr (hay.data.map Char.toLower) (needle.data.map Char.toLower)

/-- Insert `x` into a list sorted by `key` descending, before the first
element with a strictly smaller key. -/
def insertDesc (key : α → Nat) (x : α) : List α → List α
  | [] => [x]
  | y :: ys => if key y < key x then x :: y :: ys else y :: insertDesc key x ys

/-- Django descending `order_by`: sort by `key` descending. -/
def orderByDesc (key : α → Nat) (xs : List α) : List α :=
  xs.foldr (insertDesc key) []

/-- The query parameters `PetListView.get_queryset` reads
(`filtro`, `nome`, `especie`); `none` models an absent parameter. -/
structure ListRequest where
  filtro : Option String
  nome : Option String
  especie : Option String
  deriving Repr

/-- The `PetListView.get_queryset` (`adocoes/views.py`): pets of the acting
user in any status when `filtro=meus` and the requester is authenticated,
otherwise pets with status `DISPONIVEL`; then the optional
case-insensitive name filter and exact species filter (each skipped when
the parameter is absent or empty, per Python truthiness), ordered by
`data_cadastro` descending. -/
def petListQueryset (db : List Pet) (req : ListRequest) (user : Option User) :
    List Pet :=
  let queryset :=
    match req.filtro, user with
    | some "meus", some u => db.filter (fun p => p.solicitante = some u.id)
    | _, _ => db.filter (fun p => p.status = .DISPONIVEL)
  let queryset :=
    match req.nome with
    | some n => if n ≠ "" then queryset.filter (fun p => icontains p.nome n) else queryset
    | none => queryset
  let queryset :=
    match req.especie with
    | some e => if e ≠ "" then queryset.filter (fun p => p.especie.code = e) else queryset
    | none => queryset
  orderByDesc (fun p => p.dataCadastro) queryset

/-- The `PetListView.get_paginate_by` (`adocoes/views.py`): pagination is
disabled (`None`) when the `STATIC_BUILD` environment variable is truthy,
otherwise the class attribute `paginate_by = 8` applies. -/
def getPaginateBy (staticBuildEnv : Option String) : Option Nat :=
  match staticBuildEnv with
  | some v => if v ≠ "" then none else some 8
  | none => some 8

/-- Lookup of a status by its database value, as membership in
`StatusChoices`; `none` corresponds to `Pet.StatusChoices(value)` raising
`ValueError`. -/
def statusOfCode (s : String) : Option Status :=
  statusChoices.find? (fun st => st.code = s)

/-- The human label (`choice[1]`) of each status. -/
def Status.label : Status → String
  | .PENDENTE => "Pendente de Aprovação"
  | .DISPONIVEL => "Disponível"
  | .EM_PROCESSO => "Em Processo de Adoção"
  | .ADOTADO => "Adotado"

/-- The `RelatorioPetView.get_queryset` (`adocoes/views.py`): uppercase the
`status` parameter (default `PENDENTE`), fall back to `PENDENTE` when the
value is not a valid status, filter by that single status and order by
`data_atualizacao` descending. -/
def relatorioQueryset (db : List Pet) (statusParam : Option String) :
    List Pet :=
  let statusFilter := pyUpper (statusParam.getD Status.PENDENTE.code)
  let validStatuses := statusChoices.map Status.code
  let statusFilter :=
    if ¬ validStatuses.contains statusFilter then Status.PENDENTE.code
    else statusFilter
  orderByDesc (fun p => p.dataAtualizacao)
    (db.filter (fun p => p.status.code = statusFilter))

/-- The `ValueError` raised by `Pet.StatusChoices(current_status)` in
`RelatorioPetView.get_context_data`. -/
inductive ViewError
  | valueError
  deriving DecidableEq, Repr

/-- The context entries `RelatorioPetView.get_context_data` computes. -/
structure RelatorioContext where
  currentStatus : String
  pageTitle : String
  counts : List (String × Nat)
  deriving DecidableEq, Repr

/-- The `RelatorioPetView.get_context_data` (`adocoes/views.py`): uppercase the
raw `status` parameter (default `PENDENTE`) without re-validating it, build
the page title through `Pet.StatusChoices(current_status)` — which raises
`ValueError` when the value is not a member — then the per-status counts
keyed by the lowercased status value. -/
def relatorioContextData (db : List Pet) (statusParam : Option String) :
    Except ViewError RelatorioContext :=
  let currentStatus := pyUpper (statusParam.getD Status.PENDENTE.code)
  match statusOfCode currentStatus with
  | none => .error .valueError
  | some st =>
    .ok
      { currentStatus := currentStatus
        pageTitle := "Relatório: Pets " ++ st.label
        counts := statusChoices.map (fun s =>
          (pyLower s.code, (db.filter (fun p => p.status = s)).length)) }

/-! ## Basic lemmas about the embedding -/

theorem exceptBind_ok {ε α β : Type} (a : α) (f : α → Except ε β) :
    (Except.ok a >>= f) = f a := rfl

theorem exceptBind_error {ε α β : Type} (e : ε) (f : α → Except ε β) :
    ((Except.error e : Except ε α) >>= f) = Except.error e := rfl

theorem splitDot_ne_nil (cs : List Char) : splitDot cs ≠ [] := by
  induction cs with
  | nil => simp [splitDot]
  | cons c cs ih =>
    simp only [splitDot]
    split
    · simp
    · split
      · simp
      · simp

theorem splitDot_of_no_dot (cs : List Char) (h : ¬ '.' ∈ cs) :
    splitDot cs = [cs] := by
  induction cs with
  | nil => rfl
  | cons c cs ih =>
    simp only [List.mem_cons, not_or] at h
    simp only [splitDot]
    rw [if_neg (fun hc => h.1 hc.symm)]
    rw [ih h.2]

theorem splitDot_append_dot (cs : List Char) :
    splitDot (cs ++ ['.']) = splitDot cs ++ [[]] := by
  induction cs with
  | nil => rfl
  | cons c cs ih =>
    simp only [List.cons_append, splitDot]
    split
    · rw [show cs.append ['.'] = cs ++ ['.'] from rfl, ih]; rfl
    · rw [show cs.append ['.'] = cs ++ ['.'] from rfl, ih]
      rcases h : splitDot cs with _ | ⟨g, gs⟩
      · exact absurd h (splitDot_ne_nil cs)
      · simp

theorem getLastD_append_single {α : Type} (l : List α) (x d : α) :
    (l ++ [x]).getLastD d = x := by
  induction l generalizing d with
  | nil => rfl
  | cons a l ih =>
    rw [List.cons_append, List.getLastD_cons]
    exact ih a

/-- The `insertDesc` inserts exactly the new element. -/
theorem mem_insertDesc {α : Type} (key : α → Nat) (x a : α) (l : List α) :
    a ∈ insertDesc key x l ↔ a = x ∨ a ∈ l := by
  induction l with
  | nil => simp [insertDesc]
  | cons y ys ih =>
    simp only [insertDesc]
    split
    · simp [or_comm, or_assoc, or_left_comm]
    · simp only [List.mem_cons, ih]
      tauto

/-- The `insertDesc` preserves the descending-key invariant. -/
theorem pairwise_insertDesc {α : Type} (key : α → Nat) (x : α) (l : List α)
    (h : l.Pairwise (fun a b => key b ≤ key a)) :
    (insertDesc key x l).Pairwise (fun a b => key b ≤ key a) := by
  induction l with
  | nil => simp [insertDesc]
  | cons y ys ih =>
    rw [List.pairwise_cons] at h
    simp only [insertDesc]
    split
    · rename_i hlt
      rw [List.pairwise_cons]
      constructor
      · intro a ha
        rcases List.mem_cons.mp ha with rfl | ha
        · exact Nat.le_of_lt hlt
        · exact Nat.le_trans (h.1 a ha) (Nat.le_of_lt hlt)
      · exact List.Pairwise.cons h.1 h.2
    · rename_i hge
      rw [List.pairwise_cons]
      constructor
      · intro a ha
        rcases (mem_insertDesc key x a ys).mp ha with rfl | ha
        · exact Nat.le_of_not_lt hge
        · exact h.1 a ha
      · exact ih h.2

theorem mem_orderByDesc {α : Type} (key : α → Nat) (a : α) (xs : List α) :
    a ∈ orderByDesc key xs ↔ a ∈ xs := by
  induction xs with
  | nil => simp [orderByDesc]
  | cons x xs ih =>
    simp only [orderByDesc, List.foldr_cons] at *
    rw [mem_insertDesc, ih, List.mem_cons]

theorem pairwise_orderByDesc {α : Type} (key : α → Nat) (xs : List α) :
    (orderByDesc key xs).Pairwise (fun a b => key b ≤ key a) := by
  induction xs with
  | nil => simp [orderByDesc]
  | cons x xs ih =>
    exact pairwise_insertDesc key x _ ih

theorem length_insertDesc {α : Type} (key : α → Nat) (x : α) (l : List α) :
    (insertDesc key x l).length = l.length + 1 := by
  induction l with
  | nil => rfl
  | cons y ys ih =>
    simp only [insertDesc]
    split
    · simp
    · simp [ih]

theorem length_orderByDesc {α : Type} (key : α → Nat) (xs : List α) :
    (orderByDesc key xs).length = xs.length := by
  induction xs with
  | nil => rfl
  | cons x xs ih => simp [orderByDesc, length_insertDesc, ih.symm]

/-- The slug-uniqueness loop tries the candidates in increasing numeric
order, starting from the one it is given, and returns the first free one —
provided some candidate within its fuel is free. -/
theorem findSlug_spec (taken : List String) (base : String) :
    ∀ (fuel num : Nat), 1 ≤ num →
    (∃ k, k < fuel ∧ ¬ slugCandidate base (num - 1 + k) ∈ taken) →
    ∃ k, findSlug taken base fuel num (slugCandidate base (num - 1)) =
        slugCandidate base (num - 1 + k) ∧
      ¬ slugCandidate base (num - 1 + k) ∈ taken ∧
      ∀ j, j < k → slugCandidate base (num - 1 + j) ∈ taken := by
  intro fuel
  induction fuel with
  | zero =>
    intro num _ h
    exact absurd h (by simp)
  | succ fuel ih =>
    intro num hnum h
    by_cases hc : slugCandidate base (num - 1) ∈ taken
    · have hstep : findSlug taken base (fuel + 1) num (slugCandidate base (num - 1)) =
          findSlug taken base fuel (num + 1) (base ++ "-" ++ toString num) := by
        simp only [findSlug]
        rw [if_pos (by simpa using hc)]
      have hcand : base ++ "-" ++ toString num = slugCandidate base (num + 1 - 1) := by
        rcases num with _ | m
        · omega
        · rfl
      obtain ⟨k, hk, hfree⟩ := h
      rcases k with _ | k
      · exact absurd hfree (by simpa using hc)
      have hidx : ∀ j : Nat, num - 1 + (j + 1) = num + 1 - 1 + j := by omega
      obtain ⟨k', heq, hfree', hmin⟩ :=
        ih (num + 1) (by omega) ⟨k, by omega, by rw [← hidx k]; exact hfree⟩
      refine ⟨k' + 1, ?_, ?_, ?_⟩
      · rw [hstep, hcand, heq, hidx k']
      · rw [hidx k']; exact hfree'
      · intro j hj
        rcases j with _ | j
        · simpa using hc
        · rw [hidx j]; exact hmin j (by omega)
    · refine ⟨0, ?_, by simpa using hc, by omega⟩
      simp only [findSlug]
      rw [if_neg (by simpa using hc)]
      simp

/-! ## Claim theorems -/

/-- An unsaved `Pet` instance as a bound create-form carries it. -/
def newPetInstance : Pet :=
  { pk := none, solicitante := none, nome := "", slug := "", especie := .OUTRO
    raca := none, idade := 0, descricao := "", status := .PENDENTE
    dataCadastro := 0, dataAtualizacao := 0 }

/-- A saved `Pet` row used as a concrete edit-form instance. -/
def savedPetInstance : Pet :=
  { pk := some 3, solicitante := some 7, nome := "Luna", slug := "luna"
    especie := .GATO, raca := some "Siamês", idade := 2, descricao := "d"
    status := .DISPONIVEL, dataCadastro := 10, dataAtualizacao := 20 }

/-- Concrete posted form data used by the witnesses. -/
def sampleFormData : FormData :=
  { nome := "Rex", especie := .CACHORRO, status := .ADOTADO, raca := none
    idade := 5, descricao := "bom menino", videoFile := none
    fotosAdicionais := [], fotosExtrasRemover := [] }

/-- C4: the bulk approve action moves exactly the pending records of the
selection to `DISPONIVEL`, leaves the others untouched, reports the number
of pending records, and is a no-op when re-run. -/
theorem aprovarPets_moves_exactly_pending (selected : List Pet) :
    (aprovarPets selected).2 =
      (selected.filter (fun p => p.status = .PENDENTE)).length ∧
    (aprovarPets selected).1.length = selected.length ∧
    (∀ i (h1 : i < selected.length) (h2 : i < (aprovarPets selected).1.length),
      (aprovarPets selected).1.get ⟨i, h2⟩ =
        (if (selected.get ⟨i, h1⟩).status = .PENDENTE
          then { selected.get ⟨i, h1⟩ with status := .DISPONIVEL }
          else selected.get ⟨i, h1⟩)) ∧
    aprovarPets (aprovarPets selected).1 = ((aprovarPets selected).1, 0) := by
  refine ⟨rfl, by simp [aprovarPets], ?_, ?_⟩
  · intro i h1 h2
    simp [aprovarPets]
  · have hnone : ∀ p ∈ (aprovarPets selected).1, ¬ p.status = .PENDENTE := by
      intro p hp
      simp only [aprovarPets, List.mem_map] at hp
      obtain ⟨q, _, rfl⟩ := hp
      by_cases hq : q.status = .PENDENTE <;> simp [hq]
    have hfil : (aprovarPets selected).1.filter (fun p => p.status = .PENDENTE) = [] := by
      rw [List.filter_eq_nil_iff]
      intro p hp
      simpa using hnone p hp
    have hmap : (aprovarPets selected).1.map (fun p =>
        if p.status = .PENDENTE then { p with status := .DISPONIVEL } else p) =
        (aprovarPets selected).1 := by
      conv_rhs => rw [← List.map_id (aprovarPets selected).1]
      refine List.map_congr_left ?_
      intro p hp
      simp [hnone p hp]
    simp only [aprovarPets] at hmap hfil ⊢
    rw [hmap, hfil]
    rfl

/-- C4 witness: the spec scenario — three selected records, two pending and
one already available: exactly the two pending ones become available and
the reported count is 2. -/
theorem aprovarPets_moves_exactly_pending_witness :
    (aprovarPets [newPetInstance, savedPetInstance,
        { newPetInstance with pk := some 9 }]).2 = 2 ∧
    (aprovarPets [newPetInstance, savedPetInstance,
        { newPetInstance with pk := some 9 }]).1.get
        ⟨0, by decide⟩ = { newPetInstance with status := .DISPONIVEL } ∧
    (aprovarPets [newPetInstance, savedPetInstance,
        { newPetInstance with pk := some 9 }]).1.get
        ⟨1, by decide⟩ = savedPetInstance := by
  have h := aprovarPets_moves_exactly_pending
    [newPetInstance, savedPetInstance, { newPetInstance with pk := some 9 }]
  refine ⟨by rw [h.1]; decide, ?_, ?_⟩
  · rw [h.2.2.1 0 (by decide) (by decide)]; decide
  · rw [h.2.2.1 1 (by decide) (by decide)]; decide

/-- C8: `PetForm.save` dereferences `self.user.is_staff` unconditionally,
so a form built with `user=None` always fails with `AttributeError` at
save, even though field setup (`__init__`) accepts the missing user. -/
theorem petFormSave_requires_user (inst : Pet) (data : FormData) :
    petFormSaveInstance none inst data = .error .attributeError ∧
    statusFieldKept none = true := by
  constructor
  · rfl
  · rfl

/-- C10: a `filtro=meus` gallery request from an unauthenticated requester
is answered with the default public listing (status `DISPONIVEL`), not an
error, an empty set or a redirect. -/
theorem mine_filter_anonymous_falls_back (db : List Pet)
    (nome especie : Option String) :
    petListQueryset db ⟨some "meus", nome, especie⟩ none =
      petListQueryset db ⟨none, nome, especie⟩ none ∧
    (∀ p, p ∈ petListQueryset db ⟨some "meus", nome, especie⟩ none →
      p.status = .DISPONIVEL) := by
  constructor
  · rfl
  · intro p hp
    simp only [petListQueryset, mem_orderByDesc] at hp
    have hbase : ∀ (l : List Pet), p ∈ l.filter (fun q => q.status = .DISPONIVEL) →
        p.status = .DISPONIVEL := by
      intro l hl
      simpa using (List.mem_filter.mp hl).2
    rcases nome with _ | n <;> rcases especie with _ | e <;>
      simp only [] at hp
    · exact hbase db hp
    · split at hp
      · exact hbase db (List.mem_of_mem_filter hp)
      · exact hbase db hp
    · split at hp
      · exact hbase db (List.mem_of_mem_filter hp)
      · exact hbase db hp
    · split at hp <;> split at hp <;>
        first
          | exact hbase db (List.mem_of_mem_filter (List.mem_of_mem_filter hp))
          | exact hbase db (List.mem_of_mem_filter hp)
          | exact hbase db hp

/-- C10 witness: a visitor asking for `filtro=meus` over a database with
one available and one pending pet sees exactly the available one. -/
theorem mine_filter_anonymous_falls_back_witness :
    petListQueryset [newPetInstance, savedPetInstance]
        ⟨some "meus", none, none⟩ none = [savedPetInstance] ∧
    savedPetInstance.status = .DISPONIVEL := by
  refine ⟨by decide, ?_⟩
  exact (mine_filter_anonymous_falls_back [newPetInstance, savedPetInstance]
    none none).2 savedPetInstance (by decide)

/-- C5: a non-staff user has no `status` field (popped in `__init__`), a
pet it creates is saved with status `PENDENTE`, and an edit it saves keeps
the status of the instance; a staff user keeps the `status` field and the saved
status is exactly the posted one, on create and on edit alike. -/
theorem status_gating (u : User) (inst : Pet) (data : FormData) :
    (u.is_staff = false → statusFieldKept (some u) = false) ∧
    (u.is_staff = false → inst.pk = none →
      ∃ pet, petFormSaveInstance (some u) inst data = .ok pet ∧
        pet.status = .PENDENTE ∧ pet.solicitante = some u.id) ∧
    (u.is_staff = false → ∀ k, inst.pk = some k →
      ∃ pet, petFormSaveInstance (some u) inst data = .ok pet ∧
        pet.status = inst.status) ∧
    (u.is_staff = true →
      ∃ pet, petFormSaveInstance (some u) inst data = .ok pet ∧
        pet.status = data.status) := by
  refine ⟨?_, ?_, ?_, ?_⟩
  · intro hs; simp [statusFieldKept, hs]
  · intro hs hpk
    refine ⟨_, rfl, ?_⟩
    simp [petFormSaveInstance, statusFieldKept, applyFormFields, hs, hpk]
  · intro hs k hpk
    refine ⟨_, rfl, ?_⟩
    simp [petFormSaveInstance, statusFieldKept, applyFormFields, hs, hpk]
  · intro hs
    refine ⟨_, rfl, ?_⟩
    by_cases hpk : inst.pk = none <;>
      simp [petFormSaveInstance, statusFieldKept, applyFormFields, hs, hpk]

/-- C5 witness: a non-staff create is saved as `PENDENTE` even though the
posted data says `ADOTADO`; a non-staff edit keeps `DISPONIVEL`; a staff
save stores the posted `ADOTADO`. -/
theorem status_gating_witness :
    statusFieldKept (some ⟨7, false⟩) = false ∧
    (∃ pet, petFormSaveInstance (some ⟨7, false⟩) newPetInstance sampleFormData =
      .ok pet ∧ pet.status = .PENDENTE ∧ pet.solicitante = some 7) ∧
    (∃ pet, petFormSaveInstance (some ⟨7, false⟩) savedPetInstance sampleFormData =
      .ok pet ∧ pet.status = savedPetInstance.status) ∧
    (∃ pet, petFormSaveInstance (some ⟨8, true⟩) newPetInstance sampleFormData =
      .ok pet ∧ pet.status = sampleFormData.status) :=
  ⟨(status_gating ⟨7, false⟩ newPetInstance sampleFormData).1 rfl,
   (status_gating ⟨7, false⟩ newPetInstance sampleFormData).2.1 rfl rfl,
   (status_gating ⟨7, false⟩ savedPetInstance sampleFormData).2.2.1 rfl 3 rfl,
   (status_gating ⟨8, true⟩ newPetInstance sampleFormData).2.2.2 rfl⟩

/-- C9: the extension check lowercases the part after the last dot: a
dot-free filename is compared whole (lowercased) against the allowed list,
and a filename ending in a dot yields the empty extension, which is
rejected whenever the empty string is not an allowed extension. -/
theorem extension_is_last_dot_group (filename : String) (allowed : List String) :
    (¬ '.' ∈ filename.data →
      extensionOf filename = pyLower filename ∧
      validateFileExtension filename allowed =
        (if allowed.contains (pyLower filename) then .ok ()
          else .error (.invalidFormat (pyLower filename)))) ∧
    (∀ cs, filename.data = cs ++ ['.'] →
      extensionOf filename = "" ∧
      (¬ "" ∈ allowed →
        validateFileExtension filename allowed = .error (.invalidFormat ""))) := by
  constructor
  · intro hdot
    have hext : extensionOf filename = pyLower filename := by
      rw [extensionOf, splitDot_of_no_dot filename.data hdot]
      rfl
    exact ⟨hext, by rw [validateFileExtension, hext]⟩
  · intro cs hcs
    have hext : extensionOf filename = "" := by
      rw [extensionOf, hcs, splitDot_append_dot, getLastD_append_single]
      rfl
    refine ⟨hext, fun hmem => ?_⟩
    rw [validateFileExtension, hext]
    rw [if_neg (by simpa using hmem)]

/-- C9 witness: the bare filename `PNG` passes against the image extension
list, and `foto.` is rejected with the empty extension. -/
theorem extension_is_last_dot_group_witness :
    validateFileExtension "PNG" ["jpg", "jpeg", "png", "webp"] = .ok () ∧
    validateFileExtension "foto." ["jpg", "jpeg", "png", "webp"] =
      .error (.invalidFormat "") := by
  constructor
  · have h := (extension_is_last_dot_group "PNG"
      ["jpg", "jpeg", "png", "webp"]).1 (by decide)
    rw [h.2, if_pos (by decide)]
  · exact ((extension_is_last_dot_group "foto."
      ["jpg", "jpeg", "png", "webp"]).2 "foto".data (by decide)).2 (by decide)

/-- C6: saving a pet with a non-empty slug keeps it; with an empty slug the
slug becomes the first free candidate among `base`, `base-1`, `base-2`, …
(base = slugified name), each candidate checked for existence in turn, so
when the base slug is already taken the assigned slug is a numerically
suffixed candidate distinct from every existing slug. -/
theorem slug_assignment (slugify : String → String) (taken : List String)
    (p : Pet) :
    (p.slug ≠ "" → petAssignSlug slugify taken p = p) ∧
    (p.slug = "" →
      (∃ k, k < taken.length + 1 ∧ ¬ slugCandidate (slugify p.nome) k ∈ taken) →
      ∃ k, (petAssignSlug slugify taken p).slug = slugCandidate (slugify p.nome) k ∧
        ¬ slugCandidate (slugify p.nome) k ∈ taken ∧
        (∀ j, j < k → slugCandidate (slugify p.nome) j ∈ taken) ∧
        (slugify p.nome ∈ taken → 1 ≤ k ∧
          (petAssignSlug slugify taken p).slug ≠ slugify p.nome)) := by
  constructor
  · intro hne
    rw [petAssignSlug, if_neg hne]
  · intro hempty hex
    have hspec := findSlug_spec taken (slugify p.nome) (taken.length + 1) 1 (by omega)
    simp only [show (1 : Nat) - 1 = 0 from rfl, Nat.zero_add] at hspec
    obtain ⟨k, heq, hfree, hmin⟩ := hspec hex
    have hslug : (petAssignSlug slugify taken p).slug =
        findSlug taken (slugify p.nome) (taken.length + 1) 1 (slugify p.nome) := by
      rw [petAssignSlug, if_pos hempty]
    have hval : (petAssignSlug slugify taken p).slug =
        slugCandidate (slugify p.nome) k := by
      rw [hslug]; exact heq
    refine ⟨k, hval, hfree, hmin, ?_⟩
    intro hbase
    have hk : 1 ≤ k := by
      by_contra hk0
      have : k = 0 := by omega
      subst this
      exact hfree (by simpa [slugCandidate] using hbase)
    refine ⟨hk, ?_⟩
    rw [hval]
    intro hcontra
    exact hfree (by rw [hcontra]; exact hbase)

/-- C6 witness: with `rex` already taken, a new pet named `Rex` (slugified
to `rex`) is saved with slug `rex-1`, distinct from `rex`. -/
theorem slug_assignment_witness :
    (petAssignSlug pyLower ["rex"]
      { newPetInstance with nome := "Rex" }).slug = "rex-1" ∧
    ("rex-1" : String) ≠ "rex" ∧
    (petAssignSlug pyLower []
      { savedPetInstance with nome := "Rex" }) =
      { savedPetInstance with nome := "Rex" } := by
  refine ⟨?_, by decide, ?_⟩
  · obtain ⟨k, heq, hfree, hmin, hsuf⟩ :=
      (slug_assignment pyLower ["rex"] { newPetInstance with nome := "Rex" }).2
        rfl ⟨1, by decide, by decide⟩
    have hk : k = 1 := by
      rcases Nat.lt_or_ge k 1 with hk | hk
      · interval_cases k
        · exact absurd (by decide : slugCandidate (pyLower "Rex") 0 ∈ ["rex"]) hfree
      · rcases Nat.lt_or_ge k 2 with hk2 | hk2
        · omega
        · exact absurd (hmin 1 (by omega)) (by decide)
    rw [show ({ newPetInstance with nome := "Rex" } : Pet).nome = "Rex" from rfl] at heq
    rw [heq, hk]
    decide
  · exact (slug_assignment pyLower [] { savedPetInstance with nome := "Rex" }).1
      (by decide)

theorem exceptPure_def {ε α : Type} (a : α) :
    (pure a : Except ε α) = Except.ok a := rfl

theorem exceptThrow_def {ε α : Type} (e : ε) :
    (throw e : Except ε α) = Except.error e := rfl

theorem validateFileExtension_ne_countExceeded (n : String) (a : List String) :
    validateFileExtension n a ≠ .error .countExceeded := by
  rw [validateFileExtension]
  split <;> simp

theorem validateFileSize_ne_countExceeded (f : UploadFile) (m : Nat) :
    validateFileSize f m ≠ .error .countExceeded := by
  rw [validateFileSize]
  split <;> simp

theorem validateGalleryFile_ne_countExceeded (ai : List String) (mi : Nat)
    (f : UploadFile) :
    validateGalleryFile ai mi f ≠ .error .countExceeded := by
  rw [validateGalleryFile]
  rcases h : validateFileExtension f.name ai with e | u
  · rw [exceptBind_error]
    intro hc
    exact validateFileExtension_ne_countExceeded f.name ai (h.trans hc)
  · rw [exceptBind_ok]
    exact validateFileSize_ne_countExceeded f mi

theorem validateEach_ne_countExceeded
    (check : UploadFile → Except FormError Unit)
    (h : ∀ f, check f ≠ .error .countExceeded) :
    ∀ fs, validateEach check fs ≠ .error .countExceeded := by
  intro fs
  induction fs with
  | nil => simp [validateEach]
  | cons f fs ih =>
    rw [validateEach]
    rcases hf : check f with e | u
    · rw [exceptBind_error]
      intro hc
      exact h f (hf.trans hc)
    · rw [exceptBind_ok]
      exact ih

/-- The gallery section of `clean` raises the count-exceeded error exactly
when new files are present and their number plus the existing count
exceeds the maximum. -/
theorem petFormCleanGallery_countExceeded_iff (maxPhotos maxImageMb : Nat)
    (ai : List String) (existing : Nat) (data : FormData) :
    petFormCleanGallery maxPhotos maxImageMb ai existing data =
      .error .countExceeded ↔
    (data.fotosAdicionais ≠ [] ∧
      data.fotosAdicionais.length + existing > maxPhotos) := by
  rw [petFormCleanGallery]
  by_cases hne : data.fotosAdicionais ≠ []
  · rw [if_pos hne]
    by_cases hgt : data.fotosAdicionais.length + existing > maxPhotos
    · rw [if_pos hgt, exceptThrow_def, exceptBind_error]
      simp [hne, hgt]
    · rw [if_neg hgt, exceptPure_def, exceptBind_ok]
      simp only [ne_eq, hgt, and_false, iff_false]
      exact validateEach_ne_countExceeded _
        (validateGalleryFile_ne_countExceeded ai maxImageMb) _
  · rw [if_neg hne]
    simp only [exceptPure_def]
    simp only [ne_eq, not_not] at hne
    simp [hne]

theorem petFormCleanVideo_ne_countExceeded (maxVideoMb : Nat)
    (av : List String) (data : FormData) :
    petFormCleanVideo maxVideoMb av data ≠ .error .countExceeded := by
  rcases hv : data.videoFile with _ | v
  · rw [petFormCleanVideo, hv]
    simp [exceptPure_def]
  · rw [petFormCleanVideo, hv]
    show (validateFileExtension v.name av >>= fun _ =>
      validateFileSize v maxVideoMb) ≠ .error .countExceeded
    rcases hvx : validateFileExtension v.name av with e | u
    · rw [exceptBind_error]
      intro hc
      exact validateFileExtension_ne_countExceeded v.name av (hvx.trans hc)
    · rw [exceptBind_ok]
      exact validateFileSize_ne_countExceeded v maxVideoMb

theorem petFormCleanRaca_ne_countExceeded (data : FormData) :
    petFormCleanRaca data ≠ .error .countExceeded := by
  rw [petFormCleanRaca]
  split <;> simp

/-- The acceptance condition the specification states for gallery
submissions: the count of existing photos, minus the ones selected for
removal, plus the new files, stays within the maximum. -/
def specGalleryCountAccepts (existing removed newCount maxPhotos : Nat) : Prop :=
  existing - removed + newCount ≤ maxPhotos

/-- The concrete C1 counterexample submission: one valid new file while all
five existing photos are selected for removal. -/
def swapFormData : FormData :=
  { sampleFormData with
    raca := some "Vira-lata"
    fotosAdicionais := [⟨"nova.png", 100⟩]
    fotosExtrasRemover := [1, 2, 3, 4, 5] }

/-- C1 counterexample: with maximum 5, five existing photos all selected
for removal and one valid new file, the spec formula (existing − removed +
new = 1 ≤ 5) accepts, but `PetForm.clean` ignores the removal selection
and rejects with the count-exceeded `ValidationError`. -/
theorem galleryCount_ignores_removal_counterexample :
    specGalleryCountAccepts 5 5 1 5 ∧
    petFormClean 5 5 20 ["jpg", "jpeg", "png", "webp"] ["mp4"] 5 swapFormData =
      .error .countExceeded := by
  constructor
  · rw [specGalleryCountAccepts]
    omega
  · rfl

/-- C1 (amended): `PetForm.clean` rejects with the count-exceeded
`ValidationError` exactly when new files are present and existing-count
plus new-count exceeds the maximum; the removal selection is not
subtracted. -/
theorem galleryCount_rejects_iff (maxPhotos maxImageMb maxVideoMb : Nat)
    (ai av : List String) (existing : Nat) (data : FormData) :
    petFormClean maxPhotos maxImageMb maxVideoMb ai av existing data =
      .error .countExceeded ↔
    (data.fotosAdicionais ≠ [] ∧
      data.fotosAdicionais.length + existing > maxPhotos) := by
  rw [petFormClean]
  rcases hg : petFormCleanGallery maxPhotos maxImageMb ai existing data with e | u
  · rw [exceptBind_error]
    rw [← petFormCleanGallery_countExceeded_iff maxPhotos maxImageMb ai existing data]
    rw [hg]
    constructor
    · intro h
      rw [show e = FormError.countExceeded from by simpa using h]
    · intro h
      rw [show FormError.countExceeded = e from by simpa using h.symm]
  · rw [exceptBind_ok]
    have hne : (petFormCleanVideo maxVideoMb av data >>= fun _ =>
        petFormCleanRaca data) ≠ .error .countExceeded := by
      rcases hv : petFormCleanVideo maxVideoMb av data with e | u
      · rw [exceptBind_error]
        intro hc
        have he : e = FormError.countExceeded := by simpa using hc
        rw [he] at hv
        exact petFormCleanVideo_ne_countExceeded maxVideoMb av data hv
      · rw [exceptBind_ok]
        exact petFormCleanRaca_ne_countExceeded data
    simp only [hne, false_iff]
    intro h
    have := (petFormCleanGallery_countExceeded_iff maxPhotos maxImageMb ai
      existing data).mpr h
    rw [hg] at this
    exact Except.noConfusion this

/-- C2 counterexample: one remaining gallery photo with `ordem = 10`
(count 1, so the next batch starts at 2): the appended photo gets
`ordem = 2`, which does not come after the current maximum order 10 — the
numbering is count-based, not max-based. -/
theorem saveM2m_order_not_after_max_counterexample :
    ((saveM2mData [⟨7, 1, "x.png", 10, 0⟩] 1 [] [⟨"nova.png", 5⟩] 100 9).get
      ⟨0, by decide⟩).ordem = 10 ∧
    ((saveM2mData [⟨7, 1, "x.png", 10, 0⟩] 1 [] [⟨"nova.png", 5⟩] 100 9).get
      ⟨1, by decide⟩).ordem = 2 ∧
    ¬ ((saveM2mData [⟨7, 1, "x.png", 10, 0⟩] 1 [] [⟨"nova.png", 5⟩] 100 9).get
      ⟨1, by decide⟩).ordem >
      ((saveM2mData [⟨7, 1, "x.png", 10, 0⟩] 1 [] [⟨"nova.png", 5⟩] 100 9).get
      ⟨0, by decide⟩).ordem := by
  refine ⟨rfl, rfl, ?_⟩
  decide

/-- C2 (amended): `_save_m2m_data` first deletes the selected photos, then
appends the new files after the survivors; the batch is numbered
sequentially with `ordem = remaining-count + 1-based index` (which equals
one past the maximum order only when the survivors are numbered
1..count). -/
theorem saveM2m_delete_then_append (photos : List PetExtraPhoto)
    (petId : Nat) (toRemove : List Nat) (newFiles : List UploadFile)
    (nextId now : Nat) :
    (saveM2mData photos petId toRemove newFiles nextId now).length =
      (photos.filter (fun p => ¬ p.id ∈ toRemove)).length + newFiles.length ∧
    (saveM2mData photos petId toRemove newFiles nextId now).take
        (photos.filter (fun p => ¬ p.id ∈ toRemove)).length =
      photos.filter (fun p => ¬ p.id ∈ toRemove) ∧
    (∀ i (hi : i < newFiles.length),
      ∃ hidx : (photos.filter (fun p => ¬ p.id ∈ toRemove)).length + i <
          (saveM2mData photos petId toRemove newFiles nextId now).length,
        ((saveM2mData photos petId toRemove newFiles nextId now).get
          ⟨(photos.filter (fun p => ¬ p.id ∈ toRemove)).length + i, hidx⟩).ordem =
          (photos.filter (fun p => ¬ p.id ∈ toRemove)).length + 1 + i ∧
        ((saveM2mData photos petId toRemove newFiles nextId now).get
          ⟨(photos.filter (fun p => ¬ p.id ∈ toRemove)).length + i, hidx⟩).imagem =
          (newFiles.get ⟨i, hi⟩).name ∧
        ((saveM2mData photos petId toRemove newFiles nextId now).get
          ⟨(photos.filter (fun p => ¬ p.id ∈ toRemove)).length + i, hidx⟩).pet =
          petId) := by
  refine ⟨?_, ?_, ?_⟩
  · simp [saveM2mData]
  · rw [saveM2mData]
    exact List.take_left _ _
  · intro i hi
    have hidx : (photos.filter (fun p => ¬ p.id ∈ toRemove)).length + i <
        (saveM2mData photos petId toRemove newFiles nextId now).length := by
      simp [saveM2mData]
      omega
    refine ⟨hidx, ?_⟩
    have hget : (saveM2mData photos petId toRemove newFiles nextId now).get
        ⟨(photos.filter (fun p => ¬ p.id ∈ toRemove)).length + i, hidx⟩ =
        { id := nextId + i, pet := petId, imagem := (newFiles.get ⟨i, hi⟩).name
          ordem := (photos.filter (fun p => ¬ p.id ∈ toRemove)).length + 1 + i
          dataEnvio := now } := by
      have hsave : saveM2mData photos petId toRemove newFiles nextId now =
          (photos.filter (fun p => ¬ p.id ∈ toRemove)) ++
          (newFiles.enum.map (fun pair =>
            ({ id := nextId + pair.1, pet := petId, imagem := pair.2.name
               ordem := (photos.filter (fun p => ¬ p.id ∈ toRemove)).length + 1 + pair.1
               dataEnvio := now } : PetExtraPhoto))) := rfl
      rw [List.get_eq_getElem]
      simp only [hsave]
      rw [List.getElem_append_right (by omega)]
      simp [List.getElem_map, List.getElem_enum]
    rw [hget]
    exact ⟨rfl, rfl, rfl⟩

/-- C2 witness: two existing photos, one of which (id 8) is selected for
removal, plus one new file: the survivor stays first and the new file is
appended with `ordem = 1 + 1 = 2` and its own image name. -/
theorem saveM2m_delete_then_append_witness :
    (saveM2mData [⟨7, 1, "x.png", 10, 0⟩, ⟨8, 1, "y.png", 2, 1⟩] 1 [8]
        [⟨"nova.png", 5⟩] 100 9).take 1 = [⟨7, 1, "x.png", 10, 0⟩] ∧
    ∃ hidx : 1 < (saveM2mData [⟨7, 1, "x.png", 10, 0⟩, ⟨8, 1, "y.png", 2, 1⟩]
        1 [8] [⟨"nova.png", 5⟩] 100 9).length,
      ((saveM2mData [⟨7, 1, "x.png", 10, 0⟩, ⟨8, 1, "y.png", 2, 1⟩] 1 [8]
        [⟨"nova.png", 5⟩] 100 9).get ⟨1, hidx⟩).ordem = 2 ∧
      ((saveM2mData [⟨7, 1, "x.png", 10, 0⟩, ⟨8, 1, "y.png", 2, 1⟩] 1 [8]
        [⟨"nova.png", 5⟩] 100 9).get ⟨1, hidx⟩).imagem = "nova.png" := by
  have h := saveM2m_delete_then_append
    [⟨7, 1, "x.png", 10, 0⟩, ⟨8, 1, "y.png", 2, 1⟩] 1 [8] [⟨"nova.png", 5⟩] 100 9
  obtain ⟨hidx, ho, him, _⟩ := h.2.2 0 (by decide)
  exact ⟨h.2.1, hidx, ho, him⟩

/-- C3: for any database, `get_queryset` makes an invalid `status`
parameter produce the same (pending-filtered, updated-at-descending)
queryset as the default, but `get_context_data` re-reads the raw parameter
and `Pet.StatusChoices(...)` raises `ValueError` on it, so the report page
is not produced for invalid values, while the default parameter yields a
full context. -/
theorem relatorio_invalid_status_crashes (db : List Pet) :
    relatorioQueryset db (some "FOO") = relatorioQueryset db none ∧
    relatorioContextData db (some "FOO") = .error .valueError ∧
    (∃ ctx, relatorioContextData db none = .ok ctx ∧
      ctx.currentStatus = "PENDENTE" ∧
      ctx.counts = statusChoices.map (fun s =>
        (pyLower s.code, (db.filter (fun p => p.status = s)).length))) ∧
    (∀ sp, (relatorioQueryset db sp).Pairwise
      (fun a b => b.dataAtualizacao ≤ a.dataAtualizacao)) := by
  refine ⟨rfl, rfl, ⟨_, rfl, rfl, rfl⟩, fun sp => ?_⟩
  exact pairwise_orderByDesc _ _

/-- The optional name filter of the gallery listing, as a predicate: when a
non-empty `nome` parameter is present the name of the pet must contain it
case-insensitively. -/
def nameFilterOk (req : ListRequest) (p : Pet) : Prop :=
  match req.nome with
  | some n => n ≠ "" → icontains p.nome n = true
  | none => True

/-- The optional species filter of the gallery listing, as a predicate. -/
def especieFilterOk (req : ListRequest) (p : Pet) : Prop :=
  match req.especie with
  | some e => e ≠ "" → p.especie.code = e
  | none => True

theorem mem_nameLayer (o : Option String) (l : List Pet) (p : Pet) :
    (p ∈ (match o with
      | some n => if n ≠ "" then l.filter (fun q => icontains q.nome n) else l
      | none => l : List Pet)) ↔
    (p ∈ l ∧ (match o with
      | some n => n ≠ "" → icontains p.nome n = true
      | none => True)) := by
  rcases o with _ | n
  · simp
  · by_cases hn : n = "" <;> simp [hn, List.mem_filter]

theorem mem_especieLayer (o : Option String) (l : List Pet) (p : Pet) :
    (p ∈ (match o with
      | some e => if e ≠ "" then l.filter (fun q => q.especie.code = e) else l
      | none => l : List Pet)) ↔
    (p ∈ l ∧ (match o with
      | some e => e ≠ "" → p.especie.code = e
      | none => True)) := by
  rcases o with _ | e
  · simp
  · by_cases he : e = "" <;> simp [he, List.mem_filter]

theorem mem_petListQueryset_meus (db : List Pet) (req : ListRequest)
    (u : User) (p : Pet) (hf : req.filtro = some "meus") :
    p ∈ petListQueryset db req (some u) ↔
      (p ∈ db ∧ p.solicitante = some u.id ∧
        nameFilterOk req p ∧ especieFilterOk req p) := by
  simp only [petListQueryset, hf, mem_orderByDesc]
  rw [mem_especieLayer, mem_nameLayer, List.mem_filter]
  simp only [nameFilterOk, especieFilterOk, decide_eq_true_eq]
  tauto

theorem baseQueryset_cases (db : List Pet) (o : Option String)
    (us : Option User) :
    ((match o, us with
      | some "meus", some u => db.filter (fun q => q.solicitante = some u.id)
      | _, _ => db.filter (fun q => q.status = .DISPONIVEL) : List Pet) =
      db.filter (fun q => q.status = .DISPONIVEL)) ∨
    (o = some "meus" ∧ ∃ u, us = some u) := by
  split
  · right
    rename_i u
    exact ⟨rfl, u, rfl⟩
  · left
    rfl

theorem mem_petListQueryset_default (db : List Pet) (req : ListRequest)
    (user : Option User) (p : Pet)
    (h : req.filtro = some "meus" → user = none) :
    p ∈ petListQueryset db req user ↔
      (p ∈ db ∧ p.status = .DISPONIVEL ∧
        nameFilterOk req p ∧ especieFilterOk req p) := by
  rcases baseQueryset_cases db req.filtro user with hbase | ⟨hf, u, hu⟩
  · simp only [petListQueryset, mem_orderByDesc]
    rw [mem_especieLayer, mem_nameLayer, hbase, List.mem_filter]
    simp only [nameFilterOk, especieFilterOk, decide_eq_true_eq]
    tauto
  · rw [h hf] at hu
    exact Option.noConfusion hu

/-- C7: the gallery listing returns the pets of the acting owner in every
status under `filtro=meus` with an authenticated user, and the available
pets otherwise; both modes then apply the optional case-insensitive name
filter and exact species filter, the result is ordered by creation time
descending, and pagination is the fixed page size 8 except in static
export mode (truthy `STATIC_BUILD`), where it is disabled. -/
theorem gallery_listing_spec (db : List Pet) (req : ListRequest)
    (user : Option User) :
    (petListQueryset db req user).Pairwise
      (fun a b => b.dataCadastro ≤ a.dataCadastro) ∧
    (∀ u, user = some u → req.filtro = some "meus" →
      ∀ p, (p ∈ petListQueryset db req user ↔
        (p ∈ db ∧ p.solicitante = some u.id ∧
          nameFilterOk req p ∧ especieFilterOk req p))) ∧
    ((req.filtro = some "meus" → user = none) →
      ∀ p, (p ∈ petListQueryset db req user ↔
        (p ∈ db ∧ p.status = .DISPONIVEL ∧
          nameFilterOk req p ∧ especieFilterOk req p))) ∧
    getPaginateBy none = some 8 ∧
    getPaginateBy (some "") = some 8 ∧
    (∀ v, v ≠ "" → getPaginateBy (some v) = none) := by
  refine ⟨?_, ?_, ?_, rfl, rfl, ?_⟩
  · exact pairwise_orderByDesc _ _
  · intro u hu hf p
    subst hu
    exact mem_petListQueryset_meus db req u p hf
  · intro h p
    exact mem_petListQueryset_default db req user p h
  · intro v hv
    simp [getPaginateBy, hv]

/-- C7 witness: owner 9 sees their pending pet under `filtro=meus`; a
anonymous default listing shows available pets only; `STATIC_BUILD=1`
disables pagination. -/
theorem gallery_listing_spec_witness :
    ({ newPetInstance with pk := some 11, solicitante := some 9 } ∈
      petListQueryset
        [{ newPetInstance with pk := some 11, solicitante := some 9 },
          savedPetInstance]
        ⟨some "meus", none, none⟩ (some ⟨9, false⟩)) ∧
    ¬ ({ newPetInstance with pk := some 11, solicitante := some 9 } ∈
      petListQueryset
        [{ newPetInstance with pk := some 11, solicitante := some 9 },
          savedPetInstance]
        ⟨none, none, none⟩ none) ∧
    getPaginateBy (some "1") = none := by
  refine ⟨?_, ?_, ?_⟩
  · exact ((gallery_listing_spec
      [{ newPetInstance with pk := some 11, solicitante := some 9 },
        savedPetInstance] ⟨some "meus", none, none⟩ (some ⟨9, false⟩)).2.1
      ⟨9, false⟩ rfl rfl _).mpr ⟨by simp, rfl, trivial, trivial⟩
  · intro hmem
    have h := ((gallery_listing_spec
      [{ newPetInstance with pk := some 11, solicitante := some 9 },
        savedPetInstance] ⟨none, none, none⟩ none).2.2.1
      (fun hc => rfl) _).mp hmem
    exact absurd h.2.1 (by decide)
  · exact (gallery_listing_spec [] ⟨none, none, none⟩ none).2.2.2.2.2
      "1" (by decide)

end FeedPet
